/-
Verification of the Stewart CVM device protocol client (src/device.py).

The Python module is shallowly embedded: Python floats are modelled as
rationals (ℚ), Python `int()` as truncation toward zero, Python division
(which raises ZeroDivisionError on a zero divisor) as an Option-valued
division, and the asynchronous read loop / calibration sweep as pure step
functions over an explicit state, driven by a script of externally
observed events (lines read, settle signals, handshake step outcomes).
-/

import Mathlib

/-! ## Python numeric primitives -/

/-- Python `float(s)` restricted to the decimal shapes that occur on this
wire (`digits`, `digits.digits`, `.digits`, `digits.`); any other string
raises ValueError, modelled as `none`. -/
def pyFloat (s : String) : Option ℚ :=
  let readNat : List Char → Option ℕ :=
    fun cs => cs.foldlM (fun a c => if c.isDigit then some (a * 10 + (c.toNat - 48)) else none) 0
  match s.toList.span (fun c => c ≠ '.') with
  | (intPart, []) =>
      if intPart = [] then none else (readNat intPart).map (fun n => (n : ℚ))
  | (intPart, _ :: frac) =>
      if intPart = [] ∧ frac = [] then none else
      match readNat intPart, readNat frac with
      | some n, some f => some ((n : ℚ) + (f : ℚ) / (10 : ℚ) ^ frac.length)
      | _, _ => none

/-- Python `max(xs)` over a list of floats; raises ValueError on `[]`
(modelled as `none`). -/
def pyMax : List ℚ → Option ℚ
  | [] => none
  | x :: xs => some (xs.foldl max x)

/-- Python `int(x)` applied to a float: truncation toward zero. -/
def pyInt (q : ℚ) : ℤ := if 0 ≤ q then ⌊q⌋ else ⌈q⌉

/-- Python float division, which raises ZeroDivisionError when the divisor
is zero (modelled as `none`). -/
def qdiv (a b : ℚ) : Option ℚ := if b = 0 then none else some (a / b)

/-! ## Preset table (`set_aspect_ratios` and the two lookup functions) -/

/-- `MIN_COVER_POSITION = 0` (narrowest). -/
def MIN_COVER_POSITION : ℤ := 0

/-- `MAX_COVER_POSITION = 100` (widest). -/
def MAX_COVER_POSITION : ℤ := 100

/-- One entry of `self._aspect_ratios`:
`{"name", "value", "preset", "motor_position", "cover_position"}`. -/
structure AspectRatio where
  name : String
  value : ℚ
  preset : ℕ
  motor_position : ℚ
  cover_position : ℤ
deriving DecidableEq, Repr

/-- Python `sorted(..., key=itemgetter("value"))`: a stable ascending sort
by the `value` field.  Mathlib's insertion sort with the reflexive order
`≤` places each element before the strictly-later-inserted elements of
equal key, which is exactly Python's stable sort. -/
def sortByValue : List AspectRatio → List AspectRatio :=
  List.insertionSort (fun a b => a.value ≤ b.value)

/-- The list comprehension inside `set_aspect_ratios`, with `i` the
running `enumerate` index and `m` the (pre-evaluated) `max(motor_positions)`.
`float(ar)` failure, an out-of-range `motor_positions[i]`, and a zero
divisor each raise, modelled as `none`. -/
def buildEntries (motor_positions : List ℚ) (m : ℚ) : ℕ → List String → Option (List AspectRatio)
  | _, [] => some []
  | i, ar :: rest => do
      let v ← pyFloat ar
      let mp ← motor_positions.get? i
      let q ← qdiv ((m - mp) * (MAX_COVER_POSITION : ℚ)) m
      let tail ← buildEntries motor_positions m (i + 1) rest
      pure (⟨ar, v, i + 1, mp, pyInt q⟩ :: tail)

/-- `CVMDevice.set_aspect_ratios` (the aspect-name CSV is already split
into a list).  When the name list is empty the comprehension body never
runs, so `max` is never applied; otherwise an empty `motor_positions`
list or a zero maximum raises, yielding `none`. -/
def set_aspect_ratios (presets_aspect : List String) (motor_positions : List ℚ) :
    Option (List AspectRatio) :=
  match presets_aspect with
  | [] => some []
  | _ :: _ => do
      let m ← pyMax motor_positions
      let entries ← buildEntries motor_positions m 0 presets_aspect
      pure (sortByValue entries)

/-- `CVMDevice.cover_position_to_aspect`.  Indexing `[0]` / `[-1]` on an
empty table raises IndexError, modelled as `none`. -/
def cover_position_to_aspect (table : List AspectRatio) (position : ℤ) : Option AspectRatio :=
  if position ≤ MIN_COVER_POSITION then table.head?
  else if position ≥ MAX_COVER_POSITION then table.getLast?
  else
    match table.find? (fun ar => position ≤ ar.cover_position) with
    | some ar => some ar
    | none => table.getLast?

/-- The `for i, ar in enumerate(...)` loop of `motor_position_to_aspect`:
`i` is the running index, `ci`/`cd` are `close_i`/`close_diff`. -/
def mptaGo (position : ℚ) : List AspectRatio → ℕ → ℕ → ℚ → ℕ
  | [], _, ci, _ => ci
  | ar :: rest, i, ci, cd =>
      let diff := |position - ar.motor_position|
      if diff < cd then mptaGo position rest (i + 1) i diff
      else mptaGo position rest (i + 1) ci cd

/-- `CVMDevice.motor_position_to_aspect`, with its initialisation
`close_i = 0`, `close_diff = 100`.  Indexing an empty table raises
IndexError, modelled as `none`. -/
def motor_position_to_aspect (table : List AspectRatio) (position : ℚ) : Option AspectRatio :=
  table.get? (mptaGo position table 0 0 100)

/-! ## Frame parser

`CVMDevice.__init__` compiles the pattern
`[^!#]*([!#])1\.1\.(\d)\.MOTOR(\.[^=]+)?=([?.0-9A-Z]+)` and `listener`
applies it with `re.match` (anchored at the start of the line).  The
pattern is deterministic: `[^!#]*` consumes exactly the prefix up to the
first `!`/`#` (it cannot consume a marker, so no other start position is
ever tried), the optional group `(\.[^=]+)?` succeeds exactly when a `.`
follows `MOTOR` and at least one non-`=` character precedes an `=`, and
the value class `[?.0-9A-Z]+` is maximal-munch. -/

/-- A matched frame: `group(1)` = direction, `group(2)` = channel,
`group(3)` = the optional dotted attribute suffix, `group(4)` = value. -/
structure Frame where
  direction : Char
  channel : Char
  attr : Option String
  value : String
deriving DecidableEq, Repr

/-- `[^!#]*`: the maximal prefix free of direction markers. -/
def dropNoise (cs : List Char) : List Char :=
  cs.dropWhile (fun c => c ≠ '!' ∧ c ≠ '#')

/-- Match a literal character sequence, returning the rest of the input. -/
def matchLit : List Char → List Char → Option (List Char)
  | [], rest => some rest
  | _ :: _, [] => none
  | p :: ps, c :: cs => if c = p then matchLit ps cs else none

/-- The value class `[?.0-9A-Z]`. -/
def isValueChar (c : Char) : Bool := c = '?' ∨ c = '.' ∨ c.isDigit ∨ ('A' ≤ c ∧ c ≤ 'Z')

/-- `self._match_re.match(line)` of `CVMDevice.listener`. -/
def parseLine (line : String) : Option Frame :=
  match dropNoise line.toList with
  | [] => none
  | d :: rest =>
    match matchLit ['1', '.', '1', '.'] rest with
    | none => none
    | some r1 =>
      match r1 with
      | [] => none
      | ch :: r2 =>
        if ch.isDigit then
          match matchLit ['.', 'M', 'O', 'T', 'O', 'R'] r2 with
          | none => none
          | some r3 =>
            match r3 with
            | '.' :: r4 =>
              -- `(\.[^=]+)?` taken: needs ≥ 1 non-`=` char then `=`;
              -- otherwise backtracking skips the group and `=` must match
              -- the `.` we just saw, which fails.
              let a := r4.takeWhile (fun c => c ≠ '=')
              if a = [] then none else
              match r4.dropWhile (fun c => c ≠ '=') with
              | _ :: r5 =>
                let v := r5.takeWhile isValueChar
                if v = [] then none
                else some ⟨d, ch, some ('.' :: a).asString, v.asString⟩
              | [] => none
            | '=' :: r5 =>
              let v := r5.takeWhile isValueChar
              if v = [] then none
              else some ⟨d, ch, none, v.asString⟩
            | _ => none
        else none

/-! ## The read loop (`CVMDevice.listener`), one iteration

`self._data` fields (the `"position"` key is written at construction and
never updated; `"cover_position"` is created by the first changed
position frame; `"aspect_ratios"` aliases the table and is carried in
`ListenerState.table`). -/

/-- The mutable `self._data` dict. -/
structure DeviceData where
  position : Option ℤ
  motor_status : String
  motor_position : Option ℚ
  cover_position : Option ℤ
  screen_aspect_ratio : Option ℚ
  screen_aspect_ratio_string : Option String
  screen_preset : Option ℕ
deriving DecidableEq, Repr

/-- `self._data` as initialised in `__init__`. -/
def initDeviceData : DeviceData :=
  ⟨none, "STOP", none, none, none, none, none⟩

/-- The listener-relevant device state: `self._data`,
`self._aspect_ratios`, `self._is_moving`, the two events, and whether
`self._callback` is registered (`is not None`). -/
structure ListenerState where
  data : DeviceData
  table : List AspectRatio
  is_moving : Bool
  init_event : Bool
  calibrate_event : Bool
  callback_registered : Bool
deriving DecidableEq, Repr

/-- Outcome of one loop iteration: the next state plus whether
`self._callback(self._data)` ran, or an exception reaching the outer
handler (which closes the writer and breaks the loop). -/
inductive StepOut where
  | next (st : ListenerState) (fired : Bool)
  | crash
deriving DecidableEq, Repr

/-- One iteration of `CVMDevice.listener` on a received line:
`if line == b"\n": continue`, regex match, then the `RECALL` /
`.POSITION` / `.STATUS` dispatch.  `float(group(4))` failure and the
empty-table IndexError inside `motor_position_to_aspect` reach the broad
`except` clause, modelled as `.crash`. -/
def listenerStep (st : ListenerState) (line : String) : StepOut :=
  if line = "\n" then .next st false
  else
    match parseLine line with
    | none => .next st false
    | some f =>
      if f.direction = '#' ∧ f.value = "RECALL" then
        .next { st with is_moving := true } false
      else if f.direction = '!' then
        if f.attr = some ".POSITION" ∧ f.channel = '1' then
          match pyFloat f.value with
          | none => .crash
          | some motor_position =>
            if some motor_position = st.data.motor_position then
              -- the `if not self._calibrate_event.is_set()` guard only
              -- gates a debug log: setting a set event is a no-op, so the
              -- effect is an unconditional set
              .next { st with is_moving := false, calibrate_event := true } false
            else
              match motor_position_to_aspect st.table motor_position with
              | none => .crash
              | some ar =>
                let d := { st.data with
                  cover_position := some ar.cover_position,
                  motor_position := some motor_position,
                  screen_aspect_ratio := some ar.value,
                  screen_aspect_ratio_string := some ar.name,
                  screen_preset := some ar.preset }
                .next { st with data := d, init_event := true } st.callback_registered
        else if f.attr = some ".STATUS" then
          let status := f.value
          let st1 :=
            if status = "STOP" then { st with is_moving := false, calibrate_event := true }
            else st
          if status ≠ st1.data.motor_status then
            .next { st1 with data := { st1.data with motor_status := status } }
              st1.callback_registered
          else .next st1 false
        else .next st false
      else .next st false

/-! ## Object identity of `self._data`

The read loop mutates the one dict bound to `self._data` key-by-key and
hands that same object to `self._callback(self._data)`; the `data`
property is `return self._data`.  Object identity is modelled by a heap
of dict cells addressed by references. -/

/-- A heap of dict objects; a reference is an index. -/
structure Heap where
  cells : List DeviceData
deriving DecidableEq, Repr

/-- Dereference. -/
def Heap.read (h : Heap) (r : ℕ) : Option DeviceData := h.cells.get? r

/-- In-place mutation of the object behind `r`. -/
def Heap.write (h : Heap) (r : ℕ) (d : DeviceData) : Heap := ⟨h.cells.set r d⟩

/-- The `data` property: `return self._data` — the reference itself is
returned, no copy is made. -/
def dataProp (dataRef : ℕ) : ℕ := dataRef

/-- One listener iteration at the heap level: the updates go in place
into the cell behind `dataRef` (the dict is never rebound), and when the
callback fires it receives that same reference (`self._data`). -/
def listenerStepH (h : Heap) (dataRef : ℕ) (st : ListenerState) (line : String) :
    StepOut × Heap × Option ℕ :=
  match listenerStep st line with
  | .crash => (.crash, h, none)
  | .next st1 fired =>
      (.next st1 fired, h.write dataRef st1.data, if fired then some dataRef else none)

/-! ## Connection handshake (`CVMDevice.open_connection`) -/

/-- Outcome of one awaited handshake step: success, or a
TimeoutError / OSError / IncompleteReadError. -/
inductive StepResult where
  | ok
  | err
deriving DecidableEq, Repr

/-- The connection-relevant state: `self._online`, whether
`self._writer` exists, whether it has been closed, and whether a
listener task was spawned. -/
structure ConnState where
  online : Bool
  writerExists : Bool
  writerClosed : Bool
  listenerStarted : Bool
deriving DecidableEq, Repr

/-- What `open_connection` does from the caller's view: returns `True`,
or raises `ConnectionError`. -/
inductive ConnOutcome where
  | success
  | connectionError
deriving DecidableEq, Repr

/-- `CVMDevice.open_connection(test)`, driven by the outcomes of its four
awaited steps (`asyncio.open_connection`, `readuntil(b"User:")`,
`readuntil(b"Password:")`, `readuntil(b"Connected:")`).  The `except`
clause sets `self._online = False` and raises `ConnectionError`; it does
not touch `self._writer`. -/
def open_connection (test : Bool) (s : ConnState)
    (openRes userRes passRes connRes : StepResult) : ConnOutcome × ConnState :=
  if s.online ∧ s.writerExists ∧ ¬ s.writerClosed then (.success, s)
  else
    match openRes with
    | .err => (.connectionError, { s with online := false })
    | .ok =>
      let s1 := { s with writerExists := true, writerClosed := false }
      match userRes with
      | .err => (.connectionError, { s1 with online := false })
      | .ok =>
        match passRes with
        | .err => (.connectionError, { s1 with online := false })
        | .ok =>
          match connRes with
          | .err => (.connectionError, { s1 with online := false })
          | .ok =>
            if test then (.success, { s1 with writerClosed := true })
            else (.success, { s1 with online := true, listenerStarted := true })

/-! ## Calibration (`CVMDevice.async_recalibrate`)

The sweep is driven by a script: for each awaited
`self._calibrate_event.wait()` the script yields either
`some mp` (the event fired and, after the settle sleep,
`self._data["motor_position"]` reads `mp`) or `none` (no settle signal
within `CVM_CALIBRATE_TIMEOUT`). -/

/-- One element of the local `aspect_ratios` list built at the top of
`async_recalibrate`: `{"name", "value", "preset"}`. -/
structure CalEntry where
  name : String
  value : ℚ
  preset : ℕ
deriving DecidableEq, Repr

/-- The comprehension `[{"name": ar, "value": float(ar), "preset": i+1} ...]`
over the split CSV, with `float` failure (ValueError, raised before the
`try` block) as `none`. -/
def buildCalEntries : ℕ → List String → Option (List CalEntry)
  | _, [] => some []
  | i, ar :: rest => do
      let v ← pyFloat ar
      let tail ← buildCalEntries (i + 1) rest
      pure (⟨ar, v, i + 1⟩ :: tail)

/-- `sorted(..., key=itemgetter("value"))` on the calibration entries. -/
def sortCalByValue : List CalEntry → List CalEntry :=
  List.insertionSort (fun a b => a.value ≤ b.value)

/-- The `for i, ar in enumerate(aspect_ratios)` sweep: per entry, a
recall of `ar["preset"]` is sent, then the script decides settle or
timeout.  Returns the recorded `motor_positions` (or `none` on abort)
and the list of recalled preset numbers in send order. -/
def sweepGo : List CalEntry → List (Option ℚ) → Option (List ℚ) × List ℕ
  | [], _ => (some [], [])
  | e :: rest, script =>
      match script with
      | some mp :: s2 =>
          let r2 := sweepGo rest s2
          (r2.1.map (fun ps => mp :: ps), e.preset :: r2.2)
      | _ => (none, [e.preset])

/-- `CVMDevice.async_recalibrate`, driven by the settle script, with the
pre-call `self._aspect_ratios` passed in as `table`.  Result:
`(returned motor_positions_conf as a list of floats (None stays none),
 self._aspect_ratios after the call,
 the recalled presets in send order)`.  The outer `none` is the
uncaught ValueError from `float()` (raised before the `try`).  A
TimeoutError is caught with `motor_positions_conf` still `None`; the
`",".join` assignment precedes the `set_aspect_ratios` call, so a
failure inside `set_aspect_ratios` (caught by `except Exception`) still
returns the joined string while leaving the table unchanged. -/
def async_recalibrate (aspect_ratios_conf : List String) (script : List (Option ℚ))
    (table : List AspectRatio) : Option (Option (List ℚ) × List AspectRatio × List ℕ) := do
  let entries ← buildCalEntries 0 aspect_ratios_conf
  match sweepGo (sortCalByValue entries) script with
  | (none, tr) => pure (none, table, tr)
  | (some ps, tr) =>
      match set_aspect_ratios aspect_ratios_conf ps with
      | some t2 => pure (some ps, t2, tr)
      | none => pure (some ps, table, tr)

/-! ## Sanity examples -/

example : parseLine "!1.1.1.MOTOR.POSITION=123.4\n" =
    some ⟨'!', '1', some ".POSITION", "123.4"⟩ := by decide

example : parseLine "garbage\n" = none := by decide

example : parseLine "#1.1.0.MOTOR=RECALL,3;\n" = some ⟨'#', '0', none, "RECALL"⟩ := by decide

example : pyFloat "123.4" = some (617 / 5) := by simp +decide [pyFloat]; norm_num

example : pyFloat "2.0" = some 2 := by simp +decide [pyFloat]

example : set_aspect_ratios ["1.0", "2.0"] [1, 3] =
    some [⟨"1.0", 1, 1, 1, 66⟩, ⟨"2.0", 2, 2, 3, 0⟩] := by
  have hb : buildEntries [1, 3] 3 0 ["1.0", "2.0"] =
      some [⟨"1.0", 1, 1, 1, 66⟩, ⟨"2.0", 2, 2, 3, 0⟩] := by
    simp +decide [buildEntries, pyFloat, qdiv, pyInt, MAX_COVER_POSITION]
    norm_num
  simp +decide [set_aspect_ratios, pyMax, hb, sortByValue, List.insertionSort,
    List.orderedInsert, max_def]

/-! ## Claim C7: the frame parser on the three specification lines -/

/-- C7: the frame parser maps `"!1.1.1.MOTOR.POSITION=123.4\n"` to
direction `!`, channel `1`, attribute `.POSITION`, value `123.4`; maps
`"garbage\n"` to no-match; and maps `"#1.1.0.MOTOR=RECALL,3;\n"` to
direction `#`, no attribute, value `RECALL`. -/
theorem claim_C7_frame_grammar :
    parseLine "!1.1.1.MOTOR.POSITION=123.4\n" =
      some ⟨'!', '1', some ".POSITION", "123.4"⟩ ∧
    parseLine "garbage\n" = none ∧
    parseLine "#1.1.0.MOTOR=RECALL,3;\n" = some ⟨'#', '0', none, "RECALL"⟩ := by
  refine ⟨by decide, by decide, by decide⟩

/-! ## Claim C10: zero maximum motor position is a construction-time error -/

/-- C10: whenever the maximum configured motor position is 0, preset-table
construction raises ZeroDivisionError (modelled as `none`) instead of
producing a table. -/
theorem claim_C10_zero_max_raises (presets_aspect : List String) (motor_positions : List ℚ)
    (hne : presets_aspect ≠ []) (hm : pyMax motor_positions = some 0) :
    set_aspect_ratios presets_aspect motor_positions = none := by
  cases presets_aspect with
  | nil => exact absurd rfl hne
  | cons a rest =>
    have hb : buildEntries motor_positions 0 0 (a :: rest) = none := by
      simp only [buildEntries]
      cases hpf : pyFloat a with
      | none => simp
      | some v =>
        cases hg : motor_positions.get? 0 with
        | none => simp [hg]
        | some mp => simp [hg, qdiv]
    simp [set_aspect_ratios, hm, hb]

/-- Witness for C10 at the all-zero configuration. -/
theorem claim_C10_zero_max_raises_witness :
    set_aspect_ratios ["1.0", "2.0"] [0, 0] = none :=
  claim_C10_zero_max_raises ["1.0", "2.0"] [0, 0] (by simp)
    (by norm_num [pyMax, max_def])

/-! ## Claim C5: handshake failure teardown -/

/-- C5 (amended): any timeout / I/O failure at any of the four
connect/login steps surfaces `ConnectionError` and marks the client
offline, but the transport is NOT closed by the error handler: after a
successful transport open the writer is left existing and unclosed, and
no listener is started beyond what was already running. -/
theorem claim_C5_handshake_failure (test : Bool) (s : ConnState)
    (o u p c : StepResult)
    (hfresh : ¬ (s.online ∧ s.writerExists ∧ ¬ s.writerClosed))
    (herr : o = .err ∨ u = .err ∨ p = .err ∨ c = .err) :
    (open_connection test s o u p c).1 = .connectionError ∧
    ((open_connection test s o u p c).2).online = false ∧
    ((open_connection test s o u p c).2).writerClosed =
      (if o = StepResult.ok then false else s.writerClosed) ∧
    ((open_connection test s o u p c).2).listenerStarted = s.listenerStarted := by
  simp only [open_connection, if_neg hfresh]
  cases o <;> cases u <;> cases p <;> cases c <;> simp_all

/-- Witness for C5 (amended): password read times out on a fresh client. -/
theorem claim_C5_handshake_failure_witness :
    (open_connection false ⟨false, false, false, false⟩ .ok .ok .err .ok).1 =
      .connectionError ∧
    ((open_connection false ⟨false, false, false, false⟩ .ok .ok .err .ok).2).online = false ∧
    ((open_connection false ⟨false, false, false, false⟩ .ok .ok .err .ok).2).writerClosed =
      (if StepResult.ok = StepResult.ok then false else false) ∧
    ((open_connection false ⟨false, false, false, false⟩ .ok .ok .err .ok).2).listenerStarted =
      false :=
  claim_C5_handshake_failure false ⟨false, false, false, false⟩ .ok .ok .err .ok
    (by simp) (by simp)

/-- C5 counterexample: with the transport opened and the `Password:` read
failing, `open_connection` surfaces the error with the writer still open
(`writerClosed = false`): the claimed "closes the transport" teardown
does not happen. -/
theorem claim_C5_counterexample :
    open_connection false ⟨false, false, false, false⟩ .ok .ok .err .ok =
      (.connectionError, ⟨false, true, false, false⟩) ∧
    (⟨false, true, false, false⟩ : ConnState).writerClosed = false := by
  refine ⟨by decide, rfl⟩

/-! ## Calibration sweep lemmas -/

/-- If some awaited settle within the sweep's range yields no signal
(`none`, or the script is exhausted), the sweep aborts with `none`. -/
lemma sweepGo_timeout (es : List CalEntry) (script : List (Option ℚ))
    (h : ∃ k < es.length, script.getD k none = none) :
    (sweepGo es script).1 = none := by
  induction es generalizing script with
  | nil => obtain ⟨k, hk, _⟩ := h; simp at hk
  | cons e rest ih =>
    cases script with
    | nil => simp [sweepGo]
    | cons s0 s2 =>
      cases s0 with
      | none => simp [sweepGo]
      | some mp =>
        obtain ⟨k, hk, hknone⟩ := h
        cases k with
        | zero => simp at hknone
        | succ k2 =>
          have h2 : (sweepGo rest s2).1 = none :=
            ih s2 ⟨k2, by simpa using hk, by simpa using hknone⟩
          simp [sweepGo, h2]

/-- A sweep whose every awaited settle fires records the scripted motor
positions in visit order and recalls each entry's preset once, in list
order. -/
lemma sweepGo_settles (es : List CalEntry) (settles : List ℚ)
    (hlen : es.length ≤ settles.length) :
    sweepGo es (settles.map some) =
      (some (settles.take es.length), es.map (fun e => e.preset)) := by
  induction es generalizing settles with
  | nil => simp [sweepGo]
  | cons e rest ih =>
    cases settles with
    | nil => simp at hlen
    | cons mp ss =>
      have h2 := ih ss (by simpa using hlen)
      simp [sweepGo, h2]

/-- The calibration entries carry the 1-based input-order preset indices:
presets are `i+1, i+2, ...` along the (unsorted) input list. -/
lemma buildCalEntries_presets (l : List String) :
    ∀ i es, buildCalEntries i l = some es →
      es.map (fun e => e.preset) = List.range' (i + 1) l.length := by
  induction l with
  | nil =>
    intro i es h
    simp [buildCalEntries] at h
    simp [← h, List.range']
  | cons a rest ih =>
    intro i es h
    simp only [buildCalEntries, Option.bind_eq_bind] at h
    cases hv : pyFloat a with
    | none => rw [hv] at h; simp at h
    | some v =>
      rw [hv] at h
      cases htl : buildCalEntries (i + 1) rest with
      | none => rw [htl] at h; simp at h
      | some tail =>
        rw [htl] at h
        simp only [Option.some_bind, Option.pure_def, Option.some.injEq] at h
        subst h
        simp [List.range', ih (i + 1) tail htl]

/-- Sorting keys for the calibration entries. -/
instance : IsTotal CalEntry (fun a b => a.value ≤ b.value) :=
  ⟨fun a b => le_total a.value b.value⟩

instance : IsTrans CalEntry (fun a b => a.value ≤ b.value) :=
  ⟨fun _ _ _ => le_trans⟩

/-! ## Claim C4: a per-preset timeout aborts the sweep without commit -/

/-- C4: if any preset fails to settle within the calibration timeout,
`async_recalibrate` returns `None` (not an exception) and the preset
table is left exactly equal to its pre-call value. -/
theorem claim_C4_timeout_preserves_table (conf : List String) (script : List (Option ℚ))
    (table : List AspectRatio) (entries : List CalEntry)
    (hp : buildCalEntries 0 conf = some entries)
    (ht : ∃ k < entries.length, script.getD k none = none) :
    (async_recalibrate conf script table).map (fun r => (r.1, r.2.1)) =
      some (none, table) := by
  have hlen : (sortCalByValue entries).length = entries.length :=
    (List.perm_insertionSort _ entries).length_eq
  have h1 : (sweepGo (sortCalByValue entries) script).1 = none :=
    sweepGo_timeout _ script (by rw [hlen]; exact ht)
  cases h2 : sweepGo (sortCalByValue entries) script with
  | mk r tr =>
    rw [h2] at h1
    simp only at h1
    subst h1
    simp [async_recalibrate, hp, h2]

/-- Witness for C4: three presets, the second wait times out; the
pre-call table survives unchanged and the result is `None`. -/
theorem claim_C4_timeout_preserves_table_witness :
    (async_recalibrate ["1.0", "2.0", "3.0"] [some 5, none, some 7]
        [⟨"9.9", 99 / 10, 1, 50, 0⟩]).map (fun r => (r.1, r.2.1)) =
      some (none, [⟨"9.9", 99 / 10, 1, 50, 0⟩]) :=
  claim_C4_timeout_preserves_table ["1.0", "2.0", "3.0"] [some 5, none, some 7]
    [⟨"9.9", 99 / 10, 1, 50, 0⟩] [⟨"1.0", 1, 1⟩, ⟨"2.0", 2, 2⟩, ⟨"3.0", 3, 3⟩]
    (by simp +decide [buildCalEntries, pyFloat])
    ⟨1, by decide, by decide⟩

/-! ## Claim C1: order of the calibration sweep -/

/-- C1 (amended): `recalibrate` sweeps the presets in ascending
aspect-value order (the order of the `sorted(...)` list), not input
order: one recall per preset, in exactly the sorted order (a permutation
of the input entries, whose preset indices are the contiguous 1..N
input-order assignment), and on success it returns the recorded raw
motor positions in that same sorted visit order. -/
theorem claim_C1_sweep_sorted_order (conf : List String) (settles : List ℚ)
    (table : List AspectRatio) (entries : List CalEntry)
    (hp : buildCalEntries 0 conf = some entries)
    (hlen : entries.length ≤ settles.length) :
    (async_recalibrate conf (settles.map some) table).map (fun r => (r.1, r.2.2)) =
      some (some (settles.take entries.length),
        (sortCalByValue entries).map (fun e => e.preset)) ∧
    (sortCalByValue entries).Perm entries ∧
    List.Pairwise (fun a b => a.value ≤ b.value) (sortCalByValue entries) ∧
    entries.map (fun e => e.preset) = List.range' 1 conf.length := by
  have hperm : (sortCalByValue entries).Perm entries := List.perm_insertionSort _ entries
  have hlen2 : (sortCalByValue entries).length = entries.length := hperm.length_eq
  have hs := sweepGo_settles (sortCalByValue entries) settles (by rw [hlen2]; exact hlen)
  rw [hlen2] at hs
  refine ⟨?_, hperm, List.sorted_insertionSort _ entries,
    by simpa using buildCalEntries_presets conf 0 entries hp⟩
  cases hsar : set_aspect_ratios conf (settles.take entries.length) with
  | none => simp [async_recalibrate, hp, hs, hsar]
  | some t2 => simp [async_recalibrate, hp, hs, hsar]

/-- Witness for C1 (amended) on a two-preset calibration. -/
theorem claim_C1_sweep_sorted_order_witness :
    (async_recalibrate ["1.0", "2.0"] ([10, 20].map some) []).map (fun r => (r.1, r.2.2)) =
      some (some ([(10 : ℚ), 20].take ([⟨"1.0", 1, 1⟩, ⟨"2.0", 2, 2⟩] : List CalEntry).length),
        (sortCalByValue [⟨"1.0", 1, 1⟩, ⟨"2.0", 2, 2⟩]).map (fun e => e.preset)) :=
  (claim_C1_sweep_sorted_order ["1.0", "2.0"] [10, 20] [] [⟨"1.0", 1, 1⟩, ⟨"2.0", 2, 2⟩]
    (by simp +decide [buildCalEntries, pyFloat]) (by decide)).1

/-- C1 counterexample: with the input preset list `["2.0", "1.0"]` the
sweep recalls preset 2 (aspect 1.0) before preset 1 (aspect 2.0): the
visit order is the value-sorted `[2, 1]`, not the input order `[1, 2]`,
and the returned positions `[10, 20]` are likewise in sorted visit
order (input preset order would be `[20, 10]`). -/
theorem claim_C1_counterexample :
    (async_recalibrate ["2.0", "1.0"] [some 10, some 20] []).map (fun r => (r.1, r.2.2)) =
      some (some [10, 20], [2, 1]) ∧ [2, 1] ≠ [1, 2] := by
  constructor
  · have hb : buildCalEntries 0 ["2.0", "1.0"] = some [⟨"2.0", 2, 1⟩, ⟨"1.0", 1, 2⟩] := by
      simp +decide [buildCalEntries, pyFloat]
    have hsort : sortCalByValue [⟨"2.0", 2, 1⟩, ⟨"1.0", 1, 2⟩] =
        [⟨"1.0", 1, 2⟩, ⟨"2.0", 2, 1⟩] := by
      simp +decide [sortCalByValue, List.insertionSort, List.orderedInsert]
    cases hsar : set_aspect_ratios ["2.0", "1.0"] [10, 20] with
    | none => simp [async_recalibrate, hb, hsort, sweepGo, hsar]
    | some t2 => simp [async_recalibrate, hb, hsort, sweepGo, hsar]
  · decide

/-! ## Claim C6: push-callback change suppression -/

/-- C6: the read loop fires the push callback only on an actual change:
reprocessing any line immediately after a successful iteration (so a
POSITION frame repeating the now-stored raw value, or a STATUS frame
repeating the now-stored status token) never fires the callback again;
and the very first successful position frame (stored raw position still
`None`) always fires it. -/
theorem claim_C6_change_suppression :
    (∀ st line st1 b, listenerStep st line = .next st1 b →
        ∃ st2, listenerStep st1 line = .next st2 false) ∧
    (∀ st line f mp ar,
        st.data.motor_position = none → st.callback_registered = true →
        parseLine line = some f → f.direction = '!' → f.attr = some ".POSITION" →
        f.channel = '1' → pyFloat f.value = some mp →
        motor_position_to_aspect st.table mp = some ar →
        ∃ st1, listenerStep st line = .next st1 true) := by
  constructor
  · intro st line st1 b h
    by_cases hnl : line = "\n"
    · subst hnl
      simp only [listenerStep, if_pos rfl, StepOut.next.injEq] at h
      obtain ⟨rfl, rfl⟩ := h
      exact ⟨st, by simp [listenerStep]⟩
    · cases hpl : parseLine line with
      | none =>
        simp only [listenerStep, if_neg hnl, hpl, StepOut.next.injEq] at h
        obtain ⟨rfl, rfl⟩ := h
        exact ⟨st, by simp [listenerStep, hnl, hpl]⟩
      | some f =>
        simp only [listenerStep, if_neg hnl, hpl] at h
        by_cases hR : f.direction = '#' ∧ f.value = "RECALL"
        · simp only [if_pos hR, StepOut.next.injEq] at h
          obtain ⟨rfl, rfl⟩ := h
          simp [listenerStep, hnl, hpl, hR]
        · by_cases hD : f.direction = '!'
          · simp only [if_neg hR, if_pos hD] at h
            by_cases hP : f.attr = some ".POSITION" ∧ f.channel = '1'
            · simp only [if_pos hP] at h
              cases hpf : pyFloat f.value with
              | none => simp only [hpf] at h; cases h
              | some mp =>
                by_cases heq : some mp = st.data.motor_position
                · simp only [hpf, if_pos heq, StepOut.next.injEq] at h
                  obtain ⟨rfl, rfl⟩ := h
                  simp [listenerStep, hnl, hpl, hR, hD, hP, hpf, ← heq]
                · simp only [hpf, if_neg heq] at h
                  cases hla : motor_position_to_aspect st.table mp with
                  | none => simp only [hla] at h; cases h
                  | some ar =>
                    simp only [hla, StepOut.next.injEq] at h
                    obtain ⟨rfl, rfl⟩ := h
                    simp [listenerStep, hnl, hpl, hR, hD, hP, hpf]
            · by_cases hS : f.attr = some ".STATUS"
              · simp only [if_neg hP, if_pos hS] at h
                by_cases hstop : f.value = "STOP"
                · simp only [if_pos hstop] at h
                  by_cases hne : f.value = st.data.motor_status
                  · have hms : st.data.motor_status = "STOP" := by rw [← hne, hstop]
                    simp [hne, StepOut.next.injEq] at h
                    obtain ⟨rfl, rfl⟩ := h
                    simp [listenerStep, hnl, hpl, hR, hD, hP, hS, hstop, hms]
                  · simp [hne, StepOut.next.injEq] at h
                    obtain ⟨rfl, rfl⟩ := h
                    simp [listenerStep, hnl, hpl, hR, hD, hP, hS, hstop]
                · simp only [if_neg hstop] at h
                  by_cases hne : f.value = st.data.motor_status
                  · have hms : st.data.motor_status = f.value := hne.symm
                    simp [hne, StepOut.next.injEq] at h
                    obtain ⟨rfl, rfl⟩ := h
                    simp [listenerStep, hnl, hpl, hR, hD, hP, hS, hstop, hms]
                  · simp [hne, StepOut.next.injEq] at h
                    obtain ⟨rfl, rfl⟩ := h
                    simp [listenerStep, hnl, hpl, hR, hD, hP, hS, hstop]
              · simp only [if_neg hP, if_neg hS, StepOut.next.injEq] at h
                obtain ⟨rfl, rfl⟩ := h
                simp [listenerStep, hnl, hpl, hR, hD, hP, hS]
          · simp only [if_neg hR, if_neg hD, StepOut.next.injEq] at h
            obtain ⟨rfl, rfl⟩ := h
            simp [listenerStep, hnl, hpl, hR, hD]
  · intro st line f mp ar h0 hcb hpl hd ha hc hpf hla
    have hnl : line ≠ "\n" := by
      intro hl
      subst hl
      rw [show parseLine "\n" = none from by decide] at hpl
      cases hpl
    have hR : ¬ (f.direction = '#' ∧ f.value = "RECALL") := by
      rintro ⟨hcon, -⟩
      rw [hd] at hcon
      cases hcon
    simp [listenerStep, hnl, hpl, hR, hd, ha, hc, hpf, hla, h0, hcb]

/-- Witness for C6: a STATUS frame reprocessed after its own effect fires
no callback; a first POSITION frame (stored raw position `None`) fires. -/
theorem claim_C6_change_suppression_witness :
    (∃ st2, listenerStep
        ⟨⟨none, "EXTENDING", none, none, none, none, none⟩, [], false, false, false, true⟩
        "!1.1.1.MOTOR.STATUS=EXTENDING\n" = .next st2 false) ∧
    (∃ st1, listenerStep ⟨initDeviceData, [⟨"1.0", 1, 1, 5, 0⟩], false, false, false, true⟩
        "!1.1.1.MOTOR.POSITION=5\n" = .next st1 true) :=
  ⟨claim_C6_change_suppression.1
      ⟨initDeviceData, [], false, false, false, true⟩ "!1.1.1.MOTOR.STATUS=EXTENDING\n"
      ⟨⟨none, "EXTENDING", none, none, none, none, none⟩, [], false, false, false, true⟩ true
      (by decide),
   claim_C6_change_suppression.2
      ⟨initDeviceData, [⟨"1.0", 1, 1, 5, 0⟩], false, false, false, true⟩
      "!1.1.1.MOTOR.POSITION=5\n" ⟨'!', '1', some ".POSITION", "5"⟩ 5 ⟨"1.0", 1, 1, 5, 0⟩
      rfl rfl (by decide) rfl rfl rfl (by simp +decide [pyFloat])
      (by norm_num [motor_position_to_aspect, mptaGo])⟩

/-! ## Claim C9: the delivered "snapshot" aliases the live state -/

/-- Writing a cell and reading it back. -/
lemma heap_write_read (l : List DeviceData) (r : ℕ) (d : DeviceData) (hr : r < l.length) :
    (l.set r d).get? r = some d := by
  induction l generalizing r with
  | nil => simp at hr
  | cons x xs ih =>
    cases r with
    | zero => simp
    | succ r2 => simpa using ih r2 (by simpa using hr)

/-- C9 (amended): the object handed to the push callback is the live
`self._data` reference itself (and the `data` property returns that same
reference), not a defensive copy: after any later firing or non-firing
iteration, dereferencing a previously delivered reference yields the
newest state's data, not the data at delivery time. -/
theorem claim_C9_live_reference (h : Heap) (r : ℕ) (st st1 st2 : ListenerState)
    (l1 l2 : String) (b1 b2 : Bool) (h1 h2 : Heap) (c1 c2 : Option ℕ)
    (hr : r < h.cells.length)
    (hs1 : listenerStepH h r st l1 = (.next st1 b1, h1, c1))
    (hs2 : listenerStepH h1 r st1 l2 = (.next st2 b2, h2, c2)) :
    (b1 = true → c1 = some (dataProp r)) ∧
    h2.read (dataProp r) = some st2.data := by
  cases hls1 : listenerStep st l1 with
  | crash => rw [listenerStepH, hls1] at hs1; cases hs1
  | next sA bA =>
    rw [listenerStepH, hls1] at hs1
    simp only [Prod.mk.injEq, StepOut.next.injEq] at hs1
    obtain ⟨⟨rfl, rfl⟩, rfl, rfl⟩ := hs1
    cases hls2 : listenerStep sA l2 with
    | crash => rw [listenerStepH, hls2] at hs2; cases hs2
    | next sB bB =>
      rw [listenerStepH, hls2] at hs2
      simp only [Prod.mk.injEq, StepOut.next.injEq] at hs2
      obtain ⟨⟨rfl, rfl⟩, rfl, rfl⟩ := hs2
      constructor
      · intro hb; simp [hb, dataProp]
      · have hr1 : r < (Heap.write h r sA.data).cells.length := by
          simpa [Heap.write] using hr
        simp only [dataProp, Heap.read, Heap.write]
        exact heap_write_read _ r sB.data (by simpa [Heap.write] using hr)

/-- Concrete aspect table for the C9 scenario. -/
def c9Table : List AspectRatio := [⟨"1.0", 1, 1, 5, 0⟩]

/-- Listener state before the first position frame. -/
def c9St0 : ListenerState := ⟨initDeviceData, c9Table, false, false, false, true⟩

/-- `self._data` after the first position frame (raw 5). -/
def c9D1 : DeviceData := ⟨none, "STOP", some 5, some 0, some 1, some "1.0", some 1⟩

/-- Listener state after the first position frame. -/
def c9St1 : ListenerState := ⟨c9D1, c9Table, false, true, false, true⟩

/-- `self._data` after the second position frame (raw 7). -/
def c9D2 : DeviceData := ⟨none, "STOP", some 7, some 0, some 1, some "1.0", some 1⟩

/-- Listener state after the second position frame. -/
def c9St2 : ListenerState := ⟨c9D2, c9Table, false, true, false, true⟩

/-- First C9 iteration: position frame 5 fires and delivers reference 0. -/
lemma c9run1 : listenerStepH ⟨[initDeviceData]⟩ 0 c9St0 "!1.1.1.MOTOR.POSITION=5\n" =
    (.next c9St1 true, ⟨[c9D1]⟩, some 0) := by
  have hpl : parseLine "!1.1.1.MOTOR.POSITION=5\n" =
      some ⟨'!', '1', some ".POSITION", "5"⟩ := by decide
  have hpf : pyFloat "5" = some 5 := by simp +decide [pyFloat]
  have hla : motor_position_to_aspect [⟨"1.0", 1, 1, 5, 0⟩] 5 = some ⟨"1.0", 1, 1, 5, 0⟩ := by
    norm_num [motor_position_to_aspect, mptaGo]
  simp [listenerStepH, listenerStep, hpl, hpf, hla, c9St0, c9St1, c9D1, c9Table,
    initDeviceData, Heap.write]

/-- Second C9 iteration: position frame 7 mutates the same cell in place. -/
lemma c9run2 : listenerStepH ⟨[c9D1]⟩ 0 c9St1 "!1.1.1.MOTOR.POSITION=7\n" =
    (.next c9St2 true, ⟨[c9D2]⟩, some 0) := by
  have hpl : parseLine "!1.1.1.MOTOR.POSITION=7\n" =
      some ⟨'!', '1', some ".POSITION", "7"⟩ := by decide
  have hpf : pyFloat "7" = some 7 := by simp +decide [pyFloat]
  have hla : motor_position_to_aspect [⟨"1.0", 1, 1, 5, 0⟩] 7 = some ⟨"1.0", 1, 1, 5, 0⟩ := by
    norm_num [motor_position_to_aspect, mptaGo]
  simp [listenerStepH, listenerStep, hpl, hpf, hla, c9St1, c9St2, c9D1, c9D2,
    c9Table, Heap.write]

/-- Witness for C9 (amended), on the two concrete position frames. -/
theorem claim_C9_live_reference_witness :
    (true = true → some 0 = some (dataProp 0)) ∧
    Heap.read ⟨[c9D2]⟩ (dataProp 0) = some c9St2.data :=
  claim_C9_live_reference ⟨[initDeviceData]⟩ 0 c9St0 c9St1 c9St2
    "!1.1.1.MOTOR.POSITION=5\n" "!1.1.1.MOTOR.POSITION=7\n" true true
    ⟨[c9D1]⟩ ⟨[c9D2]⟩ (some 0) (some 0) (by simp) c9run1 c9run2

/-- C9 counterexample: the reference delivered by the first callback
dereferences, after the second iteration, to the second data record —
the delivered "snapshot" was modified in place, so it is not a
defensive copy. -/
theorem claim_C9_counterexample :
    listenerStepH ⟨[initDeviceData]⟩ 0 c9St0 "!1.1.1.MOTOR.POSITION=5\n" =
      (.next c9St1 true, ⟨[c9D1]⟩, some (dataProp 0)) ∧
    listenerStepH ⟨[c9D1]⟩ 0 c9St1 "!1.1.1.MOTOR.POSITION=7\n" =
      (.next c9St2 true, ⟨[c9D2]⟩, some (dataProp 0)) ∧
    Heap.read ⟨[c9D2]⟩ (dataProp 0) ≠ some c9D1 := by
  refine ⟨c9run1, c9run2, by decide⟩

/-! ## Claim C2: nearest-neighbor lookup and the `close_diff = 100` bound -/

/-- Loop invariant of `motor_position_to_aspect`: from running index `i`,
current best index `ci` and current best difference `cd`, the loop
returns `ci` when no remaining entry beats `cd` strictly, else `i + k`
for the first remaining index `k` attaining the minimum difference
(which is strictly below `cd`). -/
lemma mptaGo_spec (p : ℚ) (l : List AspectRatio) :
    ∀ (i ci : ℕ) (cd : ℚ),
      (mptaGo p l i ci cd = ci ∧ ∀ ar ∈ l, cd ≤ |p - ar.motor_position|) ∨
      (∃ k, ∃ hk : k < l.length,
        mptaGo p l i ci cd = i + k ∧
        |p - (l.get ⟨k, hk⟩).motor_position| < cd ∧
        (∀ j, ∀ hj : j < l.length,
          |p - (l.get ⟨k, hk⟩).motor_position| ≤ |p - (l.get ⟨j, hj⟩).motor_position|) ∧
        (∀ j, ∀ hj : j < k,
          |p - (l.get ⟨k, hk⟩).motor_position| <
            |p - (l.get ⟨j, Nat.lt_trans hj hk⟩).motor_position|)) := by
  induction l with
  | nil =>
    intro i ci cd
    left
    exact ⟨by simp [mptaGo], by simp⟩
  | cons ar rest ih =>
    intro i ci cd
    by_cases hlt : |p - ar.motor_position| < cd
    · rcases ih (i + 1) i |p - ar.motor_position| with
        ⟨hret, hall⟩ | ⟨k, hk, hret, hbest, hmin, hfirst⟩
      · right
        refine ⟨0, by simp, ?_, by simpa using hlt, ?_, ?_⟩
        · simp only [mptaGo, if_pos hlt]
          simpa using hret
        · intro j hj
          cases j with
          | zero => simp
          | succ j2 =>
            have hj2 : j2 < rest.length := by simpa using hj
            simpa using hall (rest.get ⟨j2, hj2⟩) (rest.get_mem _ _)
        · intro j hj
          exact absurd hj (Nat.not_lt_zero j)
      · right
        have hk1 : k + 1 < (ar :: rest).length := by simpa using hk
        refine ⟨k + 1, hk1, ?_, ?_, ?_, ?_⟩
        · simp only [mptaGo, if_pos hlt]
          rw [hret]
          omega
        · exact lt_trans (by simpa using hbest) hlt
        · intro j hj
          cases j with
          | zero => simpa using le_of_lt hbest
          | succ j2 =>
            have hj2 : j2 < rest.length := by simpa using hj
            simpa using hmin j2 hj2
        · intro j hj
          cases j with
          | zero => simpa using hbest
          | succ j2 =>
            have hj2 : j2 < k := by omega
            simpa using hfirst j2 hj2
    · rcases ih (i + 1) ci cd with
        ⟨hret, hall⟩ | ⟨k, hk, hret, hbest, hmin, hfirst⟩
      · left
        refine ⟨?_, ?_⟩
        · simp only [mptaGo, if_neg hlt]
          exact hret
        · intro x hx
          rcases List.mem_cons.mp hx with rfl | hx2
          · exact not_lt.mp hlt
          · exact hall x hx2
      · right
        have hk1 : k + 1 < (ar :: rest).length := by simpa using hk
        refine ⟨k + 1, hk1, ?_, ?_, ?_, ?_⟩
        · simp only [mptaGo, if_neg hlt]
          rw [hret]
          omega
        · simpa using hbest
        · intro j hj
          cases j with
          | zero => simpa using le_of_lt (lt_of_lt_of_le hbest (not_lt.mp hlt))
          | succ j2 =>
            have hj2 : j2 < rest.length := by simpa using hj
            simpa using hmin j2 hj2
        · intro j hj
          cases j with
          | zero => simpa using lt_of_lt_of_le hbest (not_lt.mp hlt)
          | succ j2 =>
            have hj2 : j2 < k := by omega
            simpa using hfirst j2 hj2

/-- C2 (amended): whenever some entry is within distance strictly less
than the initial bound 100 of the raw value, `motor_position_to_aspect`
returns the entry of minimal absolute difference, ties broken by the
first occurrence in table order; when every entry has distance at least
100 it falls back to the first table entry regardless of distances; on a
table with pairwise distinct motor positions, applied to an entry's own
motor position it returns that same entry. -/
theorem claim_C2_nearest_neighbor (t : List AspectRatio) (ht : t ≠ []) :
    (∀ p : ℚ, (∃ e ∈ t, |p - e.motor_position| < 100) →
      ∃ k, ∃ hk : k < t.length,
        motor_position_to_aspect t p = some (t.get ⟨k, hk⟩) ∧
        (∀ j, ∀ hj : j < t.length,
          |p - (t.get ⟨k, hk⟩).motor_position| ≤ |p - (t.get ⟨j, hj⟩).motor_position|) ∧
        (∀ j, ∀ hj : j < k,
          |p - (t.get ⟨k, hk⟩).motor_position| <
            |p - (t.get ⟨j, Nat.lt_trans hj hk⟩).motor_position|)) ∧
    (∀ p : ℚ, (∀ e ∈ t, 100 ≤ |p - e.motor_position|) →
      motor_position_to_aspect t p = t.head?) ∧
    ((∀ e1 ∈ t, ∀ e2 ∈ t, e1.motor_position = e2.motor_position → e1 = e2) →
      ∀ e ∈ t, motor_position_to_aspect t e.motor_position = some e) := by
  have hmain : ∀ p : ℚ, (∃ e ∈ t, |p - e.motor_position| < 100) →
      ∃ k, ∃ hk : k < t.length,
        motor_position_to_aspect t p = some (t.get ⟨k, hk⟩) ∧
        (∀ j, ∀ hj : j < t.length,
          |p - (t.get ⟨k, hk⟩).motor_position| ≤ |p - (t.get ⟨j, hj⟩).motor_position|) ∧
        (∀ j, ∀ hj : j < k,
          |p - (t.get ⟨k, hk⟩).motor_position| <
            |p - (t.get ⟨j, Nat.lt_trans hj hk⟩).motor_position|) := by
    intro p hex
    rcases mptaGo_spec p t 0 0 100 with ⟨hret, hall⟩ | ⟨k, hk, hret, hbest, hmin, hfirst⟩
    · obtain ⟨e, he, hlt⟩ := hex
      exact absurd hlt (not_lt.mpr (hall e he))
    · refine ⟨k, hk, ?_, hmin, hfirst⟩
      show t.get? (mptaGo p t 0 0 100) = _
      rw [hret, Nat.zero_add]
      exact List.get?_eq_get hk
  refine ⟨hmain, ?_, ?_⟩
  · intro p hall
    rcases mptaGo_spec p t 0 0 100 with ⟨hret, _⟩ | ⟨k, hk, hret, hbest, _, _⟩
    · show t.get? (mptaGo p t 0 0 100) = t.head?
      rw [hret]
      cases t with
      | nil => exact absurd rfl ht
      | cons a r => simp
    · exact absurd hbest (not_lt.mpr (hall _ (t.get_mem _ _)))
  · intro hdist e he
    have hex : ∃ x ∈ t, |e.motor_position - x.motor_position| < 100 :=
      ⟨e, he, by norm_num⟩
    obtain ⟨k, hk, hret, hmin, _⟩ := hmain e.motor_position hex
    obtain ⟨n, hekn⟩ := List.mem_iff_get.mp he
    have hd0 : |e.motor_position - (t.get ⟨k, hk⟩).motor_position| ≤ 0 := by
      have hx := hmin n.1 n.2
      rw [show t.get ⟨n.1, n.2⟩ = e from by simpa using hekn] at hx
      simpa using hx
    have heq0 : (t.get ⟨k, hk⟩).motor_position = e.motor_position := by
      have habs : |e.motor_position - (t.get ⟨k, hk⟩).motor_position| = 0 :=
        le_antisymm hd0 (abs_nonneg _)
      have hz := abs_eq_zero.mp habs
      linarith
    rw [hret, hdist _ (t.get_mem _ _) e he heq0]

/-- Witness for C2 (amended): the fixed point on a concrete table. -/
theorem claim_C2_nearest_neighbor_witness :
    motor_position_to_aspect [⟨"1.0", 1, 1, 300, 0⟩, ⟨"2.0", 2, 2, 100, 66⟩]
      (⟨"1.0", 1, 1, 300, 0⟩ : AspectRatio).motor_position =
      some ⟨"1.0", 1, 1, 300, 0⟩ :=
  (claim_C2_nearest_neighbor [⟨"1.0", 1, 1, 300, 0⟩, ⟨"2.0", 2, 2, 100, 66⟩]
      (by simp)).2.2 (by decide) ⟨"1.0", 1, 1, 300, 0⟩ (by simp)

/-- C2 counterexample: on the table built from presets 1.0 ↦ 300 and
2.0 ↦ 100, the raw value 0 is nearest to the 100-entry, but because
`close_diff` starts at 100 no entry is ever within the bound and the
function returns the first entry (motor position 300) instead, so the
nearest-neighbor claim is false as stated. -/
theorem claim_C2_counterexample :
    set_aspect_ratios ["1.0", "2.0"] [300, 100] =
      some [⟨"1.0", 1, 1, 300, 0⟩, ⟨"2.0", 2, 2, 100, 66⟩] ∧
    motor_position_to_aspect [⟨"1.0", 1, 1, 300, 0⟩, ⟨"2.0", 2, 2, 100, 66⟩] 0 =
      some ⟨"1.0", 1, 1, 300, 0⟩ ∧
    |(0 : ℚ) - (100 : ℚ)| < |(0 : ℚ) - (300 : ℚ)| := by
  refine ⟨?_, ?_, by norm_num [abs_of_nonpos]⟩
  · have hb : buildEntries [300, 100] 300 0 ["1.0", "2.0"] =
        some [⟨"1.0", 1, 1, 300, 0⟩, ⟨"2.0", 2, 2, 100, 66⟩] := by
      simp +decide [buildEntries, pyFloat, qdiv, pyInt, MAX_COVER_POSITION]
      norm_num
    simp +decide [set_aspect_ratios, pyMax, hb, sortByValue, List.insertionSort,
      List.orderedInsert, max_def]
  · norm_num [motor_position_to_aspect, mptaGo, abs_lt]

/-! ## Claim C3: the coverPosition formula -/

/-- The seed is below the running maximum. -/
lemma le_foldl_max (xs : List ℚ) : ∀ b : ℚ, b ≤ xs.foldl max b := by
  induction xs with
  | nil => intro b; exact le_refl b
  | cons y ys ih => intro b; exact le_trans (le_max_left b y) (ih (max b y))

/-- Every member is below the running maximum. -/
lemma mem_le_foldl_max (xs : List ℚ) : ∀ (b : ℚ), ∀ x ∈ xs, x ≤ xs.foldl max b := by
  induction xs with
  | nil => intro b x hx; simp at hx
  | cons y ys ih =>
    intro b x hx
    rcases List.mem_cons.mp hx with rfl | hx2
    · exact le_trans (le_max_right b x) (le_foldl_max ys (max b x))
    · exact ih (max b y) x hx2

/-- Python `max` bounds every list member. -/
lemma pyMax_le (l : List ℚ) (m : ℚ) (hm : pyMax l = some m) : ∀ x ∈ l, x ≤ m := by
  cases l with
  | nil => cases hm
  | cons x0 xs =>
    simp only [pyMax, Option.some.injEq] at hm
    subst hm
    intro x hx
    rcases List.mem_cons.mp hx with rfl | hx2
    · exact le_foldl_max xs x
    · exact mem_le_foldl_max xs x0 x hx2

/-- Each constructed entry records one of the configured motor positions
and the `int((m - mp) * 100 / m)` cover position. -/
lemma buildEntries_mem (mps : List ℚ) (m : ℚ) (l : List String) :
    ∀ i es, buildEntries mps m i l = some es →
      ∀ e ∈ es, e.motor_position ∈ mps ∧
        e.cover_position =
          pyInt ((m - e.motor_position) * (MAX_COVER_POSITION : ℚ) / m) := by
  induction l with
  | nil =>
    intro i es h
    simp only [buildEntries, Option.some.injEq] at h
    subst h
    intro e he
    simp at he
  | cons a rest ih =>
    intro i es h
    simp only [buildEntries, Option.bind_eq_bind] at h
    cases hv : pyFloat a with
    | none => rw [hv] at h; cases h
    | some v =>
      rw [hv] at h
      simp only [Option.some_bind] at h
      cases hg : mps.get? i with
      | none => rw [hg] at h; cases h
      | some mp =>
        rw [hg] at h
        simp only [Option.some_bind] at h
        by_cases hm0 : m = 0
        · rw [show qdiv ((m - mp) * (MAX_COVER_POSITION : ℚ)) m = none from
            by simp [qdiv, hm0]] at h
          cases h
        · rw [show qdiv ((m - mp) * (MAX_COVER_POSITION : ℚ)) m =
              some ((m - mp) * (MAX_COVER_POSITION : ℚ) / m) from
            by simp [qdiv, hm0]] at h
          cases htl : buildEntries mps m (i + 1) rest with
          | none => rw [htl] at h; cases h
          | some tail =>
            rw [htl] at h
            simp only [Option.some_bind, Option.pure_def, Option.some.injEq] at h
            subst h
            intro e he
            rcases List.mem_cons.mp he with rfl | he2
            · exact ⟨List.get?_mem hg, rfl⟩
            · exact ih (i + 1) tail htl e he2

/-- C3 (amended): each entry's coverPosition equals
`⌊(maxMotorPosition − motorPosition) · 100 / maxMotorPosition⌋` —
Python `int()` truncation, not `round` — and consequently entries with
the maximal motor position get coverPosition 0 and coverPosition is
antitone in motorPosition (so the smallest motor position attains the
largest coverPosition). -/
theorem claim_C3_cover_formula (names : List String) (mps : List ℚ)
    (t : List AspectRatio) (m : ℚ)
    (hsar : set_aspect_ratios names mps = some t)
    (hm : pyMax mps = some m) (hm0 : 0 < m) :
    (∀ e ∈ t, e.cover_position = ⌊(m - e.motor_position) * 100 / m⌋) ∧
    (∀ e ∈ t, e.motor_position = m → e.cover_position = 0) ∧
    (∀ e1 ∈ t, ∀ e2 ∈ t, e1.motor_position ≤ e2.motor_position →
      e2.cover_position ≤ e1.cover_position) := by
  have h100 : ((MAX_COVER_POSITION : ℤ) : ℚ) = 100 := by norm_num [MAX_COVER_POSITION]
  have hcov : ∀ e ∈ t, e.cover_position = ⌊(m - e.motor_position) * 100 / m⌋ := by
    rcases names with _ | ⟨n0, nrest⟩
    · simp only [set_aspect_ratios, Option.some.injEq] at hsar
      subst hsar
      intro e he
      simp at he
    · simp only [set_aspect_ratios, hm, Option.bind_eq_bind, Option.some_bind] at hsar
      cases hbe : buildEntries mps m 0 (n0 :: nrest) with
      | none => rw [hbe] at hsar; cases hsar
      | some entries =>
        rw [hbe] at hsar
        simp only [Option.some_bind, Option.pure_def, Option.some.injEq] at hsar
        subst hsar
        intro e he
        have he2 : e ∈ entries := ((List.perm_insertionSort _ entries).mem_iff).mp he
        obtain ⟨hmp, hcp⟩ := buildEntries_mem mps m (n0 :: nrest) 0 entries hbe e he2
        have hle : e.motor_position ≤ m := pyMax_le mps m hm _ hmp
        have hnn : 0 ≤ (m - e.motor_position) * 100 / m :=
          div_nonneg (by nlinarith) (le_of_lt hm0)
        rw [hcp, h100, pyInt, if_pos hnn]
  refine ⟨hcov, ?_, ?_⟩
  · intro e he hmp
    rw [hcov e he, hmp]
    simp
  · intro e1 h1 e2 h2 hle
    rw [hcov e1 h1, hcov e2 h2]
    apply Int.floor_le_floor
    apply (div_le_div_iff_of_pos_right hm0).mpr
    nlinarith

/-- Witness for C3 (amended): the truncated cover position of the
1.0-aspect entry on the table built from positions 1 and 3. -/
theorem claim_C3_cover_formula_witness :
    (⟨"1.0", 1, 1, 1, 66⟩ : AspectRatio).cover_position =
      ⌊((3 : ℚ) - (⟨"1.0", 1, 1, 1, 66⟩ : AspectRatio).motor_position) * 100 / 3⌋ :=
  (claim_C3_cover_formula ["1.0", "2.0"] [1, 3]
      [⟨"1.0", 1, 1, 1, 66⟩, ⟨"2.0", 2, 2, 3, 0⟩] 3
      (by
        have hb : buildEntries [1, 3] 3 0 ["1.0", "2.0"] =
            some [⟨"1.0", 1, 1, 1, 66⟩, ⟨"2.0", 2, 2, 3, 0⟩] := by
          simp +decide [buildEntries, pyFloat, qdiv, pyInt, MAX_COVER_POSITION]
          norm_num
        simp +decide [set_aspect_ratios, pyMax, hb, sortByValue, List.insertionSort,
          List.orderedInsert, max_def])
      (by norm_num [pyMax, max_def]) (by norm_num)).1
    ⟨"1.0", 1, 1, 1, 66⟩ (by simp)

/-- C3 counterexample: the table built from positions 1 and 3 gives the
1.0-aspect entry coverPosition `int(200/3) = 66`, whereas the claimed
`round((3 − 1) · 100 / 3)` is 67. -/
theorem claim_C3_counterexample :
    set_aspect_ratios ["1.0", "2.0"] [1, 3] =
      some [⟨"1.0", 1, 1, 1, 66⟩, ⟨"2.0", 2, 2, 3, 0⟩] ∧
    round (((3 : ℚ) - 1) * 100 / 3) = 67 ∧ (66 : ℤ) ≠ 67 := by
  refine ⟨?_, by norm_num [round_eq], by decide⟩
  have hb : buildEntries [1, 3] 3 0 ["1.0", "2.0"] =
      some [⟨"1.0", 1, 1, 1, 66⟩, ⟨"2.0", 2, 2, 3, 0⟩] := by
    simp +decide [buildEntries, pyFloat, qdiv, pyInt, MAX_COVER_POSITION]
    norm_num
  simp +decide [set_aspect_ratios, pyMax, hb, sortByValue, List.insertionSort,
    List.orderedInsert, max_def]

/-! ## Claim C8: cover-position lookup -/

/-- A non-empty list has a last element, and it is a member. -/
lemma getLast?_mem_of_ne_nil (l : List AspectRatio) (hl : l ≠ []) :
    ∃ e, l.getLast? = some e ∧ e ∈ l := by
  induction l with
  | nil => exact absurd rfl hl
  | cons a rest ih =>
    cases rest with
    | nil => exact ⟨a, rfl, by simp⟩
    | cons b r2 =>
      obtain ⟨e, he, hmem⟩ := ih (by simp)
      exact ⟨e, by simpa using he, by simp [hmem]⟩

/-- `find?` returns the first entry satisfying the cover bound: a split
of the table with all earlier entries strictly below the bound. -/
lemma find?_cover_first (pos : ℤ) (l : List AspectRatio) (e : AspectRatio)
    (h : l.find? (fun ar => pos ≤ ar.cover_position) = some e) :
    e ∈ l ∧ pos ≤ e.cover_position ∧
      ∃ l1 l2, l = l1 ++ e :: l2 ∧ ∀ x ∈ l1, x.cover_position < pos := by
  induction l with
  | nil => cases h
  | cons a rest ih =>
    by_cases ha : pos ≤ a.cover_position
    · rw [List.find?_cons_of_pos _ (by simpa using ha)] at h
      obtain rfl : a = e := by simpa using h
      exact ⟨by simp, ha, [], rest, rfl, by simp⟩
    · rw [List.find?_cons_of_neg _ (by simpa using ha)] at h
      obtain ⟨hmem, hle, l1, l2, hsplit, hlt⟩ := ih h
      refine ⟨by simp [hmem], hle, a :: l1, l2, by simp [hsplit], ?_⟩
      intro x hx
      rcases List.mem_cons.mp hx with rfl | hx2
      · exact lt_of_not_le ha
      · exact hlt x hx2

/-- C8 (amended): on a non-empty table every request resolves to some
entry: positions ≤ 0 map to the first entry, positions ≥ 100 to the
last, and otherwise to the first entry IN TABLE ORDER whose
coverPosition is ≥ the request (not necessarily the smallest such
coverPosition), falling back to the last entry when no coverPosition
reaches the request. -/
theorem claim_C8_cover_lookup (t : List AspectRatio) (pos : ℤ) (ht : t ≠ []) :
    ∃ e, cover_position_to_aspect t pos = some e ∧ e ∈ t ∧
      (pos ≤ 0 → t.head? = some e) ∧
      (pos ≥ 100 → 0 < pos → t.getLast? = some e) ∧
      (0 < pos → pos < 100 →
        ((pos ≤ e.cover_position ∧
            ∃ l1 l2, t = l1 ++ e :: l2 ∧ ∀ x ∈ l1, x.cover_position < pos) ∨
          ((∀ x ∈ t, x.cover_position < pos) ∧ t.getLast? = some e))) := by
  by_cases h0 : pos ≤ MIN_COVER_POSITION
  · cases t with
    | nil => exact absurd rfl ht
    | cons a rest =>
      refine ⟨a, ?_, by simp, fun _ => rfl, ?_, ?_⟩
      · simp [cover_position_to_aspect, h0]
      · intro h100 hpos
        exact absurd (lt_of_lt_of_le hpos h0) (by norm_num [MIN_COVER_POSITION])
      · intro hpos _
        exact absurd (lt_of_lt_of_le hpos h0) (by norm_num [MIN_COVER_POSITION])
  · by_cases h100 : pos ≥ MAX_COVER_POSITION
    · obtain ⟨e, he, hmem⟩ := getLast?_mem_of_ne_nil t ht
      refine ⟨e, ?_, hmem, ?_, fun _ _ => he, ?_⟩
      · simp [cover_position_to_aspect, h0, h100, he]
      · intro hle
        exact absurd (lt_of_lt_of_le (lt_of_le_of_lt hle
          (by norm_num [MIN_COVER_POSITION] at h0; omega)) (le_refl pos)) (by
            norm_num [MAX_COVER_POSITION] at h100
            omega)
      · intro _ hlt
        exact absurd (lt_of_lt_of_le hlt (by norm_num [MAX_COVER_POSITION] at h100 ⊢; omega))
          (lt_irrefl pos)
    · cases hf : t.find? (fun ar => pos ≤ ar.cover_position) with
      | some e =>
        obtain ⟨hmem, hle, l1, l2, hsplit, hlt⟩ := find?_cover_first pos t e hf
        refine ⟨e, ?_, hmem, ?_, ?_, ?_⟩
        · simp [cover_position_to_aspect, h0, h100, hf]
        · intro hp0
          exact absurd hp0 (by norm_num [MIN_COVER_POSITION] at h0; omega)
        · intro hp100 _
          exact absurd hp100 (by norm_num [MAX_COVER_POSITION] at h100; omega)
        · intro _ _
          exact Or.inl ⟨hle, l1, l2, hsplit, hlt⟩
      | none =>
        obtain ⟨e, he, hmem⟩ := getLast?_mem_of_ne_nil t ht
        refine ⟨e, ?_, hmem, ?_, ?_, ?_⟩
        · simp [cover_position_to_aspect, h0, h100, hf, he]
        · intro hp0
          exact absurd hp0 (by norm_num [MIN_COVER_POSITION] at h0; omega)
        · intro hp100 _
          exact absurd hp100 (by norm_num [MAX_COVER_POSITION] at h100; omega)
        · intro _ _
          refine Or.inr ⟨?_, he⟩
          intro x hx
          have := List.find?_eq_none.mp hf x hx
          simpa using lt_of_not_le (by simpa using this)

/-- Witness for C8 (amended) at position 50 on a two-entry table. -/
theorem claim_C8_cover_lookup_witness :
    ∃ e, cover_position_to_aspect [⟨"1.0", 1, 1, 1, 66⟩, ⟨"2.0", 2, 2, 3, 0⟩] 50 =
        some e ∧
      e ∈ [(⟨"1.0", 1, 1, 1, 66⟩ : AspectRatio), ⟨"2.0", 2, 2, 3, 0⟩] ∧
      ((50 : ℤ) ≤ 0 →
        ([(⟨"1.0", 1, 1, 1, 66⟩ : AspectRatio), ⟨"2.0", 2, 2, 3, 0⟩]).head? = some e) ∧
      ((50 : ℤ) ≥ 100 → (0 : ℤ) < 50 →
        ([(⟨"1.0", 1, 1, 1, 66⟩ : AspectRatio), ⟨"2.0", 2, 2, 3, 0⟩]).getLast? = some e) ∧
      ((0 : ℤ) < 50 → (50 : ℤ) < 100 →
        (((50 : ℤ) ≤ e.cover_position ∧
            ∃ l1 l2, [(⟨"1.0", 1, 1, 1, 66⟩ : AspectRatio), ⟨"2.0", 2, 2, 3, 0⟩] =
                l1 ++ e :: l2 ∧ ∀ x ∈ l1, x.cover_position < 50) ∨
          ((∀ x ∈ [(⟨"1.0", 1, 1, 1, 66⟩ : AspectRatio), ⟨"2.0", 2, 2, 3, 0⟩],
              x.cover_position < 50) ∧
            ([(⟨"1.0", 1, 1, 1, 66⟩ : AspectRatio), ⟨"2.0", 2, 2, 3, 0⟩]).getLast? =
              some e))) :=
  claim_C8_cover_lookup [⟨"1.0", 1, 1, 1, 66⟩, ⟨"2.0", 2, 2, 3, 0⟩] 50 (by simp)

/-- C8 counterexample: on the table built from positions 50, 90, 100
(covers 50, 10, 0 in table order), the request 5 resolves to the FIRST
entry with coverPosition ≥ 5, which has coverPosition 50 — yet the
10-cover entry also satisfies 5 ≤ 10 with 10 < 50, so the returned
entry's coverPosition is not the smallest one ≥ the request. -/
theorem claim_C8_counterexample :
    set_aspect_ratios ["1.0", "2.0", "3.0"] [50, 90, 100] =
      some [⟨"1.0", 1, 1, 50, 50⟩, ⟨"2.0", 2, 2, 90, 10⟩, ⟨"3.0", 3, 3, 100, 0⟩] ∧
    cover_position_to_aspect
        [⟨"1.0", 1, 1, 50, 50⟩, ⟨"2.0", 2, 2, 90, 10⟩, ⟨"3.0", 3, 3, 100, 0⟩] 5 =
      some ⟨"1.0", 1, 1, 50, 50⟩ ∧
    (5 : ℤ) ≤ 10 ∧ (10 : ℤ) < 50 := by
  refine ⟨?_, by decide, by decide, by decide⟩
  have hb : buildEntries [50, 90, 100] 100 0 ["1.0", "2.0", "3.0"] =
      some [⟨"1.0", 1, 1, 50, 50⟩, ⟨"2.0", 2, 2, 90, 10⟩, ⟨"3.0", 3, 3, 100, 0⟩] := by
    simp +decide [buildEntries, pyFloat, qdiv, pyInt, MAX_COVER_POSITION]
  simp +decide [set_aspect_ratios, pyMax, hb, sortByValue, List.insertionSort,
    List.orderedInsert, max_def]
